import Mathlib

/-!
Shallow embedding of the task-reconstruction core of `scrapper.py`
(Google-Spaces-Tasks-reporter).

The embedded pieces are:

* the substring tests and string splits used to classify a chat message as a
  task lifecycle event (`get_tasks`, first pass, lines 188-210);
* the assignee mention extraction of `get_tasks` (line 192) and of
  `get_people` (lines 171-172);
* the reconciliation pass of `get_tasks` (lines 217-234), including its
  remove-from-the-list-while-iterating behaviour;
* the `createTime` filter string built by `get_messages_for_space`
  (line 145);
* the per-assignee aggregation of `analyze_tasks` (lines 238-260).

Modelling conventions:

* Python strings are `String`; `needle in s` is `hasSubstr needle s`
  (all needles in the source are non-empty literals);
  `s.split(sep)` is `strSplitOn s sep`; `s.strip()` is `strTrim s`;
  `<` on strings is `strLt` — all implemented below as structural
  recursions over the underlying character list so that every definition
  evaluates inside the kernel.
* Python sets accumulated with `set.add` are modelled as duplicate-free
  lists in insertion order (`insertAbsent`).  Only membership matters for
  `completed_tasks` / `reopened_tasks` / `deleted_tasks`; for
  `assigned_tasks` the reconciliation pass iterates over the set, whose
  order CPython leaves unspecified — the model fixes insertion order.
* The `IndexError` raised by `message['thread']['name'].split("/")[3]`
  (and re-raised by the bare `raise` at line 214) is `Except.error
  "list index out of range"`; timestamps are RFC 3339 strings compared
  lexicographically, which for this fixed format agrees with
  chronological order.
-/

namespace Scrapper

/-! ### String primitives

A Lean `String` is a structure wrapping a `List Char`, and Python strings
are sequences of code points, so the Python string primitives the source
uses are modelled as structural recursions over `.data` (all of them
kernel-computable). -/

/-- One step of Python's `s.split(sep)` for a non-empty `sep`: scan left to
right, cutting at each (non-overlapping) occurrence of `sep`.  `fuel` bounds
the number of steps; every step consumes at least one character, so
`s.length + 1` units are always enough. -/
def splitOnL (sep : List Char) : Nat → List Char → List Char → List (List Char)
  | 0, acc, rest => [acc.reverse ++ rest]
  | fuel + 1, acc, rest =>
    if sep.isPrefixOf rest then
      acc.reverse :: splitOnL sep fuel [] (rest.drop sep.length)
    else
      match rest with
      | [] => [acc.reverse]
      | c :: cs => splitOnL sep fuel (c :: acc) cs

/-- Python's `s.split(sep)` for a non-empty separator. -/
def strSplitOn (s sep : String) : List String :=
  (splitOnL sep.data (s.data.length + 1) [] s.data).map (fun l => String.mk l)

/-- Python's `s.strip()`: drop whitespace from both ends. -/
def strTrim (s : String) : String :=
  String.mk (((s.data.dropWhile Char.isWhitespace).reverse.dropWhile Char.isWhitespace).reverse)

/-- Lexicographic comparison of code-point sequences: Python's `<` on
strings, which is also how RFC 3339 timestamps of the fixed `Z` format
compare chronologically. -/
def charListLt : List Char → List Char → Bool
  | _, [] => false
  | [], _ :: _ => true
  | a :: as, b :: bs =>
    if a < b then true
    else if b < a then false
    else charListLt as bs

/-- Python's `<` on strings. -/
def strLt (a b : String) : Bool :=
  charListLt a.data b.data

/-- Python's `<=` on strings. -/
def strLe (a b : String) : Bool :=
  strLt a b || a == b

/-- Python's substring test `needle in s`, for a non-empty needle:
`s.split(needle)` has more than one piece exactly when `needle` occurs
in `s`. -/
def hasSubstr (needle s : String) : Bool :=
  (strSplitOn s needle).length != 1

/-- Python `set.add`: the set is modelled as a duplicate-free list kept in
insertion order. -/
def insertAbsent (l : List String) (x : String) : List String :=
  if x ∈ l then l else l ++ [x]

/-- The fields of a Google Chat message record that the core reads:
`message['text']`, `message['createTime']` and `message['thread']['name']`. -/
structure Message where
  text : String
  createTime : String
  threadName : String
deriving DecidableEq

/-- The task dictionary built by `get_tasks` (lines 195-201). -/
structure Task where
  id : String
  assignee : String
  status : String
  created_time : String
  space_name : String
deriving DecidableEq

/-- Line 190: `message['thread']['name'].split("/")[3]`; `none` when the
thread path has fewer than four `/`-separated segments, in which case the
Python expression raises `IndexError`. -/
def threadTaskId (m : Message) : Option String :=
  (strSplitOn m.threadName "/")[3]?

/-- Line 192 of `get_tasks`:
`assignee = text.split("@")[1].split("(")[0].strip() if "@" in text else "Unassigned"`.
When `"@" ∈ text`, `splitOn "@"` has at least two pieces and `splitOn "("`
is never empty, so the `getD` defaults are never used. -/
def assigneeFromText (text : String) : String :=
  if hasSubstr "@" text then
    strTrim (((strSplitOn ((strSplitOn text "@").getD 1 "") "(").getD 0 ""))
  else "Unassigned"

/-- Lines 171-172 of `get_people` (only reached when `"via Tasks" in text`
and `"@" in text`):
`assignee = text.split("@")[1].split("(")[0].strip()` followed by
`assignee = assignee.split(" to")[0].strip()`. -/
def peopleAssignee (text : String) : String :=
  strTrim ((strSplitOn (strTrim ((strSplitOn ((strSplitOn text "@").getD 1 "") "(").getD 0 "")) " to").getD 0 "")

/-- The assignee-extraction formula exactly as the specification words it
(spec section 4.2): the substring after the FIRST `@` up to the first
following `(`, surrounding whitespace trimmed, then any trailing `" to"`
SUFFIX additionally removed.  Used only to compare the specification's
wording with the implementation. -/
def specMentionFormula (text : String) : String :=
  let afterAt := String.mk (List.intercalate ['@'] (((strSplitOn text "@").drop 1).map String.data))
  let upToParen := (strSplitOn afterAt "(").getD 0 ""
  let trimmed := strTrim upToParen
  if (" to".data.isSuffixOf trimmed.data) then
    strTrim (String.mk (trimmed.data.take (trimmed.data.length - 3)))
  else trimmed

/-- A message is treated as a task lifecycle event iff its text contains the
literal marker `"via Tasks"` (line 189). -/
def isViaTasks (m : Message) : Bool :=
  hasSubstr "via Tasks" m.text

/-- A message that the first pass of `get_tasks` materialises a task from:
the `"via Tasks"` marker plus the `"Created"` phrase (first branch of the
`if`/`elif` chain, line 194). -/
def isCreatedEvent (m : Message) : Bool :=
  isViaTasks m && hasSubstr "Created" m.text

/-- The mutable state of the first pass of `get_tasks` (lines 182-183):
the `tasks` list plus the four event-id sets. -/
structure PassState where
  tasks : List Task
  completed_tasks : List String
  reopened_tasks : List String
  deleted_tasks : List String
  assigned_tasks : List String
deriving DecidableEq

/-- The empty accumulators of line 182-183. -/
def initState : PassState :=
  { tasks := [], completed_tasks := [], reopened_tasks := [],
    deleted_tasks := [], assigned_tasks := [] }

/-- One iteration of the first message loop of `get_tasks`
(lines 188-210): classify `m` and update the accumulators.  A thread path
with fewer than four segments raises `IndexError` (line 190), which the
`except` block at lines 212-214 logs and re-raises. -/
def pass1Step (space_name : String) (st : PassState) (m : Message) :
    Except String PassState :=
  if isViaTasks m then
    match threadTaskId m with
    | none => .error "list index out of range"
    | some task_id =>
      let text := m.text
      let assignee := assigneeFromText text
      if hasSubstr "Created" text then
        .ok { st with tasks := st.tasks ++
          [{ id := task_id, assignee := assignee, status := "OPEN",
             created_time := m.createTime, space_name := space_name }] }
      else if hasSubstr "Assigned" text then
        .ok { st with assigned_tasks :=
          insertAbsent st.assigned_tasks (task_id ++ "@" ++ assignee) }
      else if hasSubstr "Completed" text then
        .ok { st with completed_tasks := insertAbsent st.completed_tasks task_id }
      else if hasSubstr "Deleted" text then
        .ok { st with deleted_tasks := insertAbsent st.deleted_tasks task_id }
      else if hasSubstr "Re-opened" text then
        .ok { st with reopened_tasks := insertAbsent st.reopened_tasks task_id }
      else .ok st
  else .ok st

/-- The first message loop of `get_tasks`: fold `pass1Step` over the batch,
aborting at the first `IndexError` exactly as the raised exception aborts
the Python loop. -/
def pass1Aux (space_name : String) (st : PassState) :
    List Message → Except String PassState
  | [] => .ok st
  | m :: ms =>
    match pass1Step space_name st m with
    | .error e => .error e
    | .ok st1 => pass1Aux space_name st1 ms

/-- The whole first pass of `get_tasks` on a message batch. -/
def pass1 (space_name : String) (msgs : List Message) :
    Except String PassState :=
  pass1Aux space_name initState msgs

/-- The inner `for assigned in assigned_tasks` loop of the reconciliation
pass (lines 222-229): every assignment entry `tid ++ "@" ++ assignee` whose
`tid` equals the task's id overwrites the task's assignee. -/
def applyAssigns (assigned_tasks : List String) (t : Task) : Task :=
  assigned_tasks.foldl
    (fun t assigned =>
      let new_assignment := strSplitOn assigned "@"
      let tid := new_assignment.getD 0 ""
      let t_assignee := new_assignment.getD 1 ""
      if tid == t.id then { t with assignee := t_assignee } else t)
    t

/-- Lines 231-234: `if task_id in completed_tasks: status = 'COMPLETED'
elif task_id in reopened_tasks: status = 'OPEN'`.  Note `completed_tasks`
is tested FIRST, so COMPLETED wins when both sets contain the id. -/
def applyStatus (completed_tasks reopened_tasks : List String) (t : Task) : Task :=
  if t.id ∈ completed_tasks then { t with status := "COMPLETED" }
  else if t.id ∈ reopened_tasks then { t with status := "OPEN" }
  else t

/-- The full body of one reconciliation iteration applied to a task that
stays in the list: assignment overwrites, then the status `if`/`elif`. -/
def applyUpdates (st : PassState) (t : Task) : Task :=
  applyStatus st.completed_tasks st.reopened_tasks (applyAssigns st.assigned_tasks t)

/-- The reconciliation loop of `get_tasks` (lines 217-234), modelled at the
level of CPython's list-iterator protocol.  `i` is the iterator's cursor:
each iteration reads `task = tasks[i]` and advances the cursor.

`tasks.remove(task)` (line 220) deletes the FIRST element `==`-equal to
`task`; its index is `j = findIdx (· = task)`, and `j ≤ i` always holds
because `tasks[i]` itself is equal to `task`.  After the deletion the list
shifts left, so the element that was at `i + 1` is never visited — this is
the iterate-while-mutating behaviour of the source.  When `j = i` the
current dictionary leaves the list and the assignment/status writes that
follow the `remove` mutate a dead object; when `j < i` (an earlier
`==`-equal duplicate was removed instead) the current dictionary is still
in the list, now at index `i - 1`, and the writes land there.

The loop is driven by fuel, one unit per iteration.  The cursor `i` grows
by one per iteration while the list never grows, so `ts.length - i` units
suffice; when the fuel hits zero, `i ≥ ts.length` already holds and
returning `ts` is exactly what the exhausted Python iterator does. -/
def reconcileGo (st : PassState) : Nat → List Task → Nat → List Task
  | 0, ts, _ => ts
  | n + 1, ts, i =>
    if h : i < ts.length then
      let task := ts[i]
      if task.id ∈ st.deleted_tasks then
        let j := ts.findIdx (fun u => decide (u = task))
        if j < i then
          reconcileGo st n ((ts.eraseIdx j).set (i - 1) (applyUpdates st task)) (i + 1)
        else
          reconcileGo st n (ts.eraseIdx j) (i + 1)
      else
        reconcileGo st n (ts.set i (applyUpdates st task)) (i + 1)
    else ts

/-- The whole reconciliation pass over the tasks produced by the first
pass. -/
def reconcile (st : PassState) : List Task :=
  reconcileGo st st.tasks.length st.tasks 0

/-- The function `get_tasks(service, space_name, start_date, end_date)` (lines 180-236),
taking the already-fetched message batch as input (fetching, retry and
pagination are the excluded I/O layer).  The first pass classifies the
messages; an `IndexError` from a malformed thread path is re-raised by
line 214, so no reconciliation happens and no task list is returned. -/
def get_tasks (space_name : String) (msgs : List Message) :
    Except String (List Task) :=
  match pass1 space_name msgs with
  | .error e => .error e
  | .ok st => .ok (reconcile st)

/-- The message filter built by `get_messages_for_space` (line 145):
`createTime > "{date_start}" AND createTime < "{date_end}"` — both
comparisons strict.  `true` iff a message with the given `createTime` is
returned by the query. -/
def messages_filter (createTime date_start date_end : String) : Bool :=
  strLt date_start createTime && strLt createTime date_end

/-- The column schema of the report produced by `analyze_tasks`. -/
def reportColumns : List String :=
  ["assignee", "tasks_received", "tasks_completed", "completion_rate"]

/-- One row of the report of `analyze_tasks`.  `completion_rate` is kept as
an exact rational (`tasks_completed / tasks_received`); pandas reports the
same value as a float. -/
structure ReportRow where
  assignee : String
  tasks_received : Nat
  tasks_completed : Nat
  completion_rate : Rat
deriving DecidableEq

/-- A pandas `DataFrame` reduced to what the report uses: a column schema
and a list of rows. -/
structure Report where
  columns : List String
  rows : List ReportRow
deriving DecidableEq

/-- Insertion of a string into a `≤`-sorted list (helper for the sorted
group-by index of pandas). -/
def insertSorted (a : String) : List String → List String
  | [] => [a]
  | b :: l => if strLe a b then a :: b :: l else b :: insertSorted a l

/-- Sort a list of strings ascending — `groupby` sorts its keys. -/
def sortStrings (l : List String) : List String :=
  l.foldr insertSorted []

/-- The function `analyze_tasks(tasks)` (lines 238-260).  An empty input returns an
empty DataFrame that still carries the four columns (line 242).  Otherwise
`groupby('assignee').size()` yields one row per distinct assignee, sorted
ascending; `tasks_completed` counts the assignee's rows with status
`COMPLETED` (`fillna(0)` makes it 0 when there are none); and
`completion_rate = tasks_completed / tasks_received`. -/
def analyze_tasks (tasks : List Task) : Report :=
  if tasks.isEmpty then { columns := reportColumns, rows := [] }
  else
    let assignees := sortStrings ((tasks.map (fun t => t.assignee)).dedup)
    { columns := reportColumns,
      rows := assignees.map (fun a =>
        let received := (tasks.filter (fun t => t.assignee == a)).length
        let completed :=
          (tasks.filter (fun t => t.assignee == a && t.status == "COMPLETED")).length
        { assignee := a, tasks_received := received, tasks_completed := completed,
          completion_rate := (completed : Rat) / (received : Rat) }) }

/-! ### Helper lemmas about the update functions -/

lemma applyAssigns_cons (s : String) (l : List String) (t : Task) :
    applyAssigns (s :: l) t =
      applyAssigns l
        (if (strSplitOn s "@").getD 0 "" == t.id then
          { t with assignee := (strSplitOn s "@").getD 1 "" } else t) := by
  simp only [applyAssigns, List.foldl_cons]

lemma applyAssigns_id (aT : List String) (t : Task) :
    (applyAssigns aT t).id = t.id := by
  induction aT generalizing t with
  | nil => rfl
  | cons s l ih =>
    rw [applyAssigns_cons]
    split <;> simp [ih]

lemma applyAssigns_status (aT : List String) (t : Task) :
    (applyAssigns aT t).status = t.status := by
  induction aT generalizing t with
  | nil => rfl
  | cons s l ih =>
    rw [applyAssigns_cons]
    split <;> simp [ih]

lemma applyAssigns_assignee_of_filter_nil (aT : List String) (t : Task)
    (h : aT.filter (fun s => (strSplitOn s "@").getD 0 "" == t.id) = []) :
    (applyAssigns aT t).assignee = t.assignee := by
  induction aT generalizing t with
  | nil => rfl
  | cons s l ih =>
    rw [List.filter_cons] at h
    rw [applyAssigns_cons]
    by_cases hp : ((strSplitOn s "@").getD 0 "" == t.id) = true
    · rw [if_pos hp] at h
      exact absurd h (by simp)
    · rw [if_neg hp] at h
      rw [if_neg hp]
      exact ih t h

lemma applyAssigns_assignee_of_filter (aT : List String) (t : Task) (e : String)
    (h : aT.filter (fun s => (strSplitOn s "@").getD 0 "" == t.id) = [e]) :
    (applyAssigns aT t).assignee = (strSplitOn e "@").getD 1 "" := by
  induction aT generalizing t with
  | nil => simp at h
  | cons s l ih =>
    rw [List.filter_cons] at h
    rw [applyAssigns_cons]
    by_cases hp : ((strSplitOn s "@").getD 0 "" == t.id) = true
    · rw [if_pos hp] at h
      rw [if_pos hp]
      injection h with hse hnil
      subst hse
      have hnil2 : l.filter
          (fun x => (strSplitOn x "@").getD 0 "" ==
            ({ t with assignee := (strSplitOn s "@").getD 1 "" } : Task).id) = [] := hnil
      rw [applyAssigns_assignee_of_filter_nil l _ hnil2]
    · rw [if_neg hp] at h
      rw [if_neg hp]
      exact ih t h

lemma applyStatus_id (c r : List String) (t : Task) :
    (applyStatus c r t).id = t.id := by
  simp only [applyStatus]
  split <;> [rfl; (split <;> rfl)]

lemma applyStatus_assignee (c r : List String) (t : Task) :
    (applyStatus c r t).assignee = t.assignee := by
  simp only [applyStatus]
  split <;> [rfl; (split <;> rfl)]

lemma applyStatus_of_completed (c r : List String) (t : Task)
    (h : t.id ∈ c) : (applyStatus c r t).status = "COMPLETED" := by
  simp only [applyStatus, if_pos h]

lemma applyUpdates_id (st : PassState) (t : Task) :
    (applyUpdates st t).id = t.id := by
  simp only [applyUpdates]
  rw [applyStatus_id, applyAssigns_id]

lemma applyUpdates_status_of_completed (st : PassState) (t : Task)
    (h : t.id ∈ st.completed_tasks) : (applyUpdates st t).status = "COMPLETED" := by
  simp only [applyUpdates]
  exact applyStatus_of_completed _ _ _ (by rw [applyAssigns_id]; exact h)

lemma applyUpdates_assignee_of_filter (st : PassState) (t : Task) (e : String)
    (h : st.assigned_tasks.filter (fun s => (strSplitOn s "@").getD 0 "" == t.id) = [e]) :
    (applyUpdates st t).assignee = (strSplitOn e "@").getD 1 "" := by
  simp only [applyUpdates]
  rw [applyStatus_assignee, applyAssigns_assignee_of_filter _ _ _ h]

/-! ### List surgery helpers -/

lemma take_set_of_le {α : Type} (l : List α) (i n : Nat) (a : α) (h : n ≤ i) :
    (l.set i a).take n = l.take n := by
  rw [List.set_take]
  apply List.set_eq_of_length_le
  rw [List.length_take]
  omega

lemma take_succ_set_self {α : Type} (l : List α) (i : Nat) (a : α) (h : i < l.length) :
    (l.set i a).take (i + 1) = l.take i ++ [a] := by
  rw [List.take_succ, take_set_of_le l i i a (le_refl i)]
  rw [List.getElem?_set_self h]
  rfl

lemma drop_set_of_lt {α : Type} (l : List α) (i n : Nat) (a : α) (h : i < n) :
    (l.set i a).drop n = l.drop n := by
  rw [List.drop_set, if_pos h]

lemma findIdx_le_of_getElem {α : Type} (p : α → Bool) (l : List α) (i : Nat)
    (h : i < l.length) (hp : p l[i] = true) : l.findIdx p ≤ i := by
  induction l generalizing i with
  | nil => simp at h
  | cons a l ih =>
    rw [List.findIdx_cons]
    cases hpa : p a with
    | true => simp
    | false =>
      simp only [cond_false]
      cases i with
      | zero =>
        rw [List.getElem_cons_zero] at hp
        rw [hpa] at hp
        exact absurd hp (by simp)
      | succ i =>
        have := ih i (by simpa using h) (by simpa using hp)
        omega

/-! ### Unfolding equations for the reconciliation loop -/

lemma reconcileGo_zero (st : PassState) (ts : List Task) (i : Nat) :
    reconcileGo st 0 ts i = ts := rfl

lemma reconcileGo_succ (st : PassState) (n : Nat) (ts : List Task) (i : Nat) :
    reconcileGo st (n + 1) ts i =
      if h : i < ts.length then
        if ts[i].id ∈ st.deleted_tasks then
          if ts.findIdx (fun u => decide (u = ts[i])) < i then
            reconcileGo st n
              ((ts.eraseIdx (ts.findIdx (fun u => decide (u = ts[i])))).set (i - 1)
                (applyUpdates st ts[i])) (i + 1)
          else
            reconcileGo st n (ts.eraseIdx (ts.findIdx (fun u => decide (u = ts[i])))) (i + 1)
        else
          reconcileGo st n (ts.set i (applyUpdates st ts[i])) (i + 1)
      else ts := rfl

/-! ### The reconciliation loop without deletions is a plain map -/

lemma reconcileGo_no_del (st : PassState) (hd : st.deleted_tasks = []) :
    ∀ (n : Nat) (ts : List Task) (i : Nat), ts.length ≤ i + n →
      reconcileGo st n ts i = ts.take i ++ (ts.drop i).map (applyUpdates st) := by
  intro n
  induction n with
  | zero =>
    intro ts i hlen
    rw [reconcileGo_zero, List.take_of_length_le (by omega),
      List.drop_eq_nil_of_le (by omega)]
    simp
  | succ n ih =>
    intro ts i hlen
    rw [reconcileGo_succ]
    by_cases h : i < ts.length
    · rw [dif_pos h]
      have hnd : ¬ (ts[i].id ∈ st.deleted_tasks) := by rw [hd]; simp
      rw [if_neg hnd]
      rw [ih (ts.set i (applyUpdates st ts[i])) (i + 1) (by rw [List.length_set]; omega)]
      rw [take_succ_set_self _ _ _ h, drop_set_of_lt _ _ _ _ (by omega)]
      rw [List.drop_eq_getElem_cons h, List.map_cons, List.append_assoc,
        List.singleton_append]
    · rw [dif_neg h]
      rw [List.take_of_length_le (by omega), List.drop_eq_nil_of_le (by omega)]
      simp

lemma reconcile_no_del (st : PassState) (hd : st.deleted_tasks = []) :
    reconcile st = st.tasks.map (applyUpdates st) := by
  unfold reconcile
  rw [reconcileGo_no_del st hd st.tasks.length st.tasks 0 (by omega)]
  simp

/-! ### Every task surviving reconciliation descends from an input task -/

lemma reconcileGo_mem (st : PassState) :
    ∀ (n : Nat) (ts : List Task) (i : Nat) (t : Task),
      t ∈ reconcileGo st n ts i → ∃ u ∈ ts, t.id = u.id := by
  intro n
  induction n with
  | zero =>
    intro ts i t ht
    exact ⟨t, ht, rfl⟩
  | succ n ih =>
    intro ts i t ht
    rw [reconcileGo_succ] at ht
    by_cases h : i < ts.length
    · rw [dif_pos h] at ht
      by_cases hdel : ts[i].id ∈ st.deleted_tasks
      · rw [if_pos hdel] at ht
        by_cases hj : ts.findIdx (fun u => decide (u = ts[i])) < i
        · rw [if_pos hj] at ht
          obtain ⟨u, hu, hid⟩ := ih _ _ _ ht
          rcases List.mem_or_eq_of_mem_set hu with hmem | heq
          · exact ⟨u, (List.eraseIdx_sublist _ _).subset hmem, hid⟩
          · subst heq
            exact ⟨ts[i], List.getElem_mem h, by rw [hid, applyUpdates_id]⟩
        · rw [if_neg hj] at ht
          obtain ⟨u, hu, hid⟩ := ih _ _ _ ht
          exact ⟨u, (List.eraseIdx_sublist _ _).subset hu, hid⟩
      · rw [if_neg hdel] at ht
        obtain ⟨u, hu, hid⟩ := ih _ _ _ ht
        rcases List.mem_or_eq_of_mem_set hu with hmem | heq
        · exact ⟨u, hmem, hid⟩
        · subst heq
          exact ⟨ts[i], List.getElem_mem h, by rw [hid, applyUpdates_id]⟩
    · rw [dif_neg h] at ht
      exact ⟨t, ht, rfl⟩

/-! ### With at most one deletable task, reconciliation removes them all

The iterate-while-mutating removal can only fail to delete a task when a
removal happened in the immediately preceding iteration (the shifted
element is skipped).  When at most one materialised task carries a deleted
id this cannot happen, so no surviving task carries a deleted id. -/

lemma reconcileGo_deleted_absent (st : PassState) :
    ∀ (n : Nat) (ts : List Task) (i : Nat),
      ts.length ≤ i + n →
      (∀ t ∈ ts.take i, t.id ∉ st.deleted_tasks) →
      (ts.drop i).countP (fun t => decide (t.id ∈ st.deleted_tasks)) ≤ 1 →
      ∀ t ∈ reconcileGo st n ts i, t.id ∉ st.deleted_tasks := by
  intro n
  induction n with
  | zero =>
    intro ts i hlen hpre _ t ht
    have htake : ts.take i = ts := List.take_of_length_le (by omega)
    exact hpre t (by rw [htake]; exact ht)
  | succ n ih =>
    intro ts i hlen hpre hcnt t ht
    rw [reconcileGo_succ] at ht
    by_cases h : i < ts.length
    · rw [dif_pos h] at ht
      have hlen_take : (ts.take i).length = i := by
        rw [List.length_take]
        omega
      have hdropcons : ts.drop i = ts[i] :: ts.drop (i + 1) := List.drop_eq_getElem_cons h
      by_cases hdel : ts[i].id ∈ st.deleted_tasks
      · rw [if_pos hdel] at ht
        -- the current element is the first `==`-equal one: an earlier equal
        -- element would sit in the already-visited prefix, which is
        -- deleted-id-free, yet would carry the same (deleted) id.
        have hji : ¬ (ts.findIdx (fun u => decide (u = ts[i])) < i) := by
          intro hlt
          have hw : ts.findIdx (fun u => decide (u = ts[i])) < ts.length := lt_trans hlt h
          have hfi := @List.findIdx_getElem _ (fun u => decide (u = ts[i])) ts hw
          have heq : ts[ts.findIdx (fun u => decide (u = ts[i]))] = ts[i] := by
            simpa using hfi
          have hj2 : ts.findIdx (fun u => decide (u = ts[i])) < (ts.take i).length := by
            rw [hlen_take]
            exact hlt
          have hgt : (ts.take i)[ts.findIdx (fun u => decide (u = ts[i]))] =
              ts[ts.findIdx (fun u => decide (u = ts[i]))] :=
            @List.getElem_take _ ts i (ts.findIdx (fun u => decide (u = ts[i]))) hj2
          have hmem : ts[ts.findIdx (fun u => decide (u = ts[i]))] ∈ ts.take i := by
            rw [← hgt]
            exact List.getElem_mem hj2
          exact hpre _ hmem (by rw [heq]; exact hdel)
        rw [if_neg hji] at ht
        have hj_le : ts.findIdx (fun u => decide (u = ts[i])) ≤ i :=
          findIdx_le_of_getElem _ ts i h (by simp)
        have hj : ts.findIdx (fun u => decide (u = ts[i])) = i := by omega
        rw [hj] at ht
        have hcnt0 : (ts.drop (i + 1)).countP (fun t => decide (t.id ∈ st.deleted_tasks)) = 0 := by
          rw [hdropcons] at hcnt
          rw [List.countP_cons_of_pos _ _ (by simpa using hdel)] at hcnt
          omega
        have hnone : ∀ x ∈ ts.drop (i + 1), x.id ∉ st.deleted_tasks := by
          intro x hx
          have := List.countP_eq_zero.mp hcnt0 x hx
          simpa using this
        have herase : ts.eraseIdx i = ts.take i ++ ts.drop (i + 1) :=
          List.eraseIdx_eq_take_drop_succ ts i
        refine ih (ts.eraseIdx i) (i + 1) ?_ ?_ ?_ t ht
        · rw [List.length_eraseIdx, if_pos h]
          omega
        · intro x hx
          rw [herase, List.take_append_eq_append_take, hlen_take,
            List.take_of_length_le (by rw [hlen_take]; omega)] at hx
          rcases List.mem_append.mp hx with hx1 | hx2
          · exact hpre x hx1
          · exact hnone x ((List.take_sublist _ _).subset hx2)
        · rw [herase, List.drop_append_eq_append_drop, hlen_take,
            List.drop_eq_nil_of_le (by rw [hlen_take]; omega), List.nil_append]
          calc ((ts.drop (i + 1)).drop (i + 1 - i)).countP
                  (fun t => decide (t.id ∈ st.deleted_tasks))
              ≤ (ts.drop (i + 1)).countP (fun t => decide (t.id ∈ st.deleted_tasks)) :=
                (List.drop_sublist _ _).countP_le _
            _ ≤ 1 := by rw [hcnt0]; omega
      · rw [if_neg hdel] at ht
        refine ih (ts.set i (applyUpdates st ts[i])) (i + 1) ?_ ?_ ?_ t ht
        · rw [List.length_set]
          omega
        · intro x hx
          rw [take_succ_set_self _ _ _ h] at hx
          rcases List.mem_append.mp hx with hx1 | hx2
          · exact hpre x hx1
          · have hxeq : x = applyUpdates st ts[i] := by simpa using hx2
            rw [hxeq, applyUpdates_id]
            exact hdel
        · rw [drop_set_of_lt _ _ _ _ (by omega)]
          rw [hdropcons] at hcnt
          rw [List.countP_cons_of_neg _ _ (by simpa using hdel)] at hcnt
          exact hcnt
    · rw [dif_neg h] at ht
      have htake : ts.take i = ts := List.take_of_length_le (by omega)
      exact hpre t (by rw [htake]; exact ht)

/-! ### First-pass lemmas -/

lemma mem_insertAbsent_self (l : List String) (x : String) : x ∈ insertAbsent l x := by
  unfold insertAbsent
  split
  · assumption
  · simp

lemma mem_insertAbsent_of_mem (l : List String) (x y : String) (h : y ∈ l) :
    y ∈ insertAbsent l x := by
  unfold insertAbsent
  split
  · exact h
  · exact List.mem_append_left _ h

lemma pass1Step_err (sp : String) (st : PassState) (m : Message)
    (hvia : isViaTasks m = true) (hnone : threadTaskId m = none) :
    pass1Step sp st m = .error "list index out of range" := by
  simp [pass1Step, hvia, hnone]

lemma pass1Step_ok_exists (sp : String) (st : PassState) (m : Message)
    (h : ¬(isViaTasks m = true ∧ threadTaskId m = none)) :
    ∃ st1, pass1Step sp st m = .ok st1 := by
  unfold pass1Step
  by_cases hvia : isViaTasks m = true
  · rw [if_pos hvia]
    cases hid : threadTaskId m with
    | none => exact absurd ⟨hvia, hid⟩ h
    | some tid =>
      dsimp only
      split
      · exact ⟨_, rfl⟩
      · split
        · exact ⟨_, rfl⟩
        · split
          · exact ⟨_, rfl⟩
          · split
            · exact ⟨_, rfl⟩
            · split
              · exact ⟨_, rfl⟩
              · exact ⟨_, rfl⟩
  · rw [if_neg hvia]
    exact ⟨st, rfl⟩

lemma pass1Step_error_val (sp : String) (st : PassState) (m : Message) (e : String)
    (h : pass1Step sp st m = .error e) : e = "list index out of range" := by
  by_cases hvn : isViaTasks m = true ∧ threadTaskId m = none
  · rw [pass1Step_err sp st m hvn.1 hvn.2] at h
    exact (Except.error.inj h).symm
  · obtain ⟨st1, hok⟩ := pass1Step_ok_exists sp st m hvn
    rw [hok] at h
    exact Except.noConfusion h

/-- Case analysis of one successful classification step: either the message
is a Created event and a task is appended (everything else untouched), or
the task list is unchanged and the assignment set only grows. -/
lemma pass1Step_ok_cases (sp : String) (st : PassState) (m : Message) (st1 : PassState)
    (h : pass1Step sp st m = .ok st1) :
    (∃ tid, threadTaskId m = some tid ∧ isCreatedEvent m = true ∧
      st1 = { st with tasks := st.tasks ++
        [{ id := tid, assignee := assigneeFromText m.text, status := "OPEN",
           created_time := m.createTime, space_name := sp }] }) ∨
    (isCreatedEvent m = false ∧ st1.tasks = st.tasks ∧
      ∀ x ∈ st.assigned_tasks, x ∈ st1.assigned_tasks) := by
  unfold pass1Step at h
  by_cases hvia : isViaTasks m = true
  · rw [if_pos hvia] at h
    cases hid : threadTaskId m with
    | none =>
      rw [hid] at h
      exact Except.noConfusion h
    | some tid =>
      rw [hid] at h
      dsimp only at h
      by_cases hcr : hasSubstr "Created" m.text = true
      · rw [if_pos hcr] at h
        refine .inl ⟨tid, rfl, ?_, ?_⟩
        · simp [isCreatedEvent, hvia, hcr]
        · exact (Except.ok.inj h).symm
      · rw [if_neg hcr] at h
        refine .inr ⟨by simp [isCreatedEvent, hcr], ?_, ?_⟩
        · split at h
          · cases (Except.ok.inj h)
            rfl
          · split at h
            · cases (Except.ok.inj h)
              rfl
            · split at h
              · cases (Except.ok.inj h)
                rfl
              · split at h
                · cases (Except.ok.inj h)
                  rfl
                · cases (Except.ok.inj h)
                  rfl
        · intro x hx
          split at h
          · cases (Except.ok.inj h)
            exact mem_insertAbsent_of_mem _ _ _ hx
          · split at h
            · cases (Except.ok.inj h)
              exact hx
            · split at h
              · cases (Except.ok.inj h)
                exact hx
              · split at h
                · cases (Except.ok.inj h)
                  exact hx
                · cases (Except.ok.inj h)
                  exact hx
  · rw [if_neg hvia] at h
    cases (Except.ok.inj h)
    exact .inr ⟨by simp [isCreatedEvent, isViaTasks] at hvia ⊢; simp [hvia], rfl, fun x hx => hx⟩

lemma pass1Step_assigned (sp : String) (st : PassState) (m : Message) (st1 : PassState)
    (h : pass1Step sp st m = .ok st1) (hvia : isViaTasks m = true)
    (hnc : hasSubstr "Created" m.text = false)
    (has2 : hasSubstr "Assigned" m.text = true) (tid : String)
    (hid : threadTaskId m = some tid) :
    (tid ++ "@" ++ assigneeFromText m.text) ∈ st1.assigned_tasks := by
  unfold pass1Step at h
  rw [if_pos hvia, hid] at h
  dsimp only at h
  rw [if_neg (by rw [hnc]; simp), if_pos has2] at h
  cases (Except.ok.inj h)
  exact mem_insertAbsent_self _ _

/-- The ids of the tasks materialised by the first pass are exactly the ids
of the Created-classified messages, in arrival order — one entry per
Created event, duplicates included. -/
lemma pass1Aux_tasks (sp : String) :
    ∀ (msgs : List Message) (st0 st : PassState),
      pass1Aux sp st0 msgs = .ok st →
      st.tasks.map (fun t => t.id) =
        st0.tasks.map (fun t => t.id) ++
          (msgs.filter isCreatedEvent).map (fun m => (threadTaskId m).getD "") := by
  intro msgs
  induction msgs with
  | nil =>
    intro st0 st h
    cases (Except.ok.inj h)
    simp
  | cons m ms ih =>
    intro st0 st h
    unfold pass1Aux at h
    cases hstep : pass1Step sp st0 m with
    | error e =>
      rw [hstep] at h
      exact Except.noConfusion h
    | ok st1 =>
      rw [hstep] at h
      have hih := ih st1 st h
      rcases pass1Step_ok_cases sp st0 m st1 hstep with ⟨tid, hid, hcr, hst1⟩ | ⟨hcr, htasks, _⟩
      · rw [List.filter_cons, if_pos hcr, hih, hst1]
        simp [hid]
      · rw [List.filter_cons, if_neg (by rw [hcr]; simp), hih, htasks]

lemma pass1Aux_error (sp : String) :
    ∀ (msgs : List Message) (st0 : PassState) (m : Message),
      m ∈ msgs → isViaTasks m = true → threadTaskId m = none →
      pass1Aux sp st0 msgs = .error "list index out of range" := by
  intro msgs
  induction msgs with
  | nil =>
    intro st0 m hm
    simp at hm
  | cons a ms ih =>
    intro st0 m hm hvia hnone
    unfold pass1Aux
    rcases List.mem_cons.mp hm with rfl | hm2
    · rw [pass1Step_err sp st0 m hvia hnone]
    · cases hstep : pass1Step sp st0 a with
      | error e =>
        rw [pass1Step_error_val sp st0 a e hstep]
      | ok st1 =>
        exact ih st1 m hm2 hvia hnone

lemma pass1Aux_ok_exists (sp : String) :
    ∀ (msgs : List Message) (st0 : PassState),
      (∀ m ∈ msgs, isViaTasks m = true → threadTaskId m ≠ none) →
      ∃ st, pass1Aux sp st0 msgs = .ok st := by
  intro msgs
  induction msgs with
  | nil =>
    intro st0 _
    exact ⟨st0, rfl⟩
  | cons a ms ih =>
    intro st0 hwf
    obtain ⟨st1, hok⟩ := pass1Step_ok_exists sp st0 a
      (fun hvn => hwf a (List.mem_cons_self a ms) hvn.1 hvn.2)
    obtain ⟨st, h2⟩ := ih st1 (fun m hm => hwf m (List.mem_cons_of_mem a hm))
    refine ⟨st, ?_⟩
    unfold pass1Aux
    rw [hok]
    exact h2

lemma pass1Aux_assigned_mono (sp : String) :
    ∀ (msgs : List Message) (st0 st : PassState),
      pass1Aux sp st0 msgs = .ok st →
      ∀ x ∈ st0.assigned_tasks, x ∈ st.assigned_tasks := by
  intro msgs
  induction msgs with
  | nil =>
    intro st0 st h x hx
    cases (Except.ok.inj h)
    exact hx
  | cons a ms ih =>
    intro st0 st h x hx
    unfold pass1Aux at h
    cases hstep : pass1Step sp st0 a with
    | error e =>
      rw [hstep] at h
      exact Except.noConfusion h
    | ok st1 =>
      rw [hstep] at h
      refine ih st1 st h x ?_
      rcases pass1Step_ok_cases sp st0 a st1 hstep with ⟨tid, _, _, hst1⟩ | ⟨_, _, hmono⟩
      · rw [hst1]
        exact hx
      · exact hmono x hx

lemma pass1Aux_assigned_mem (sp : String) :
    ∀ (msgs : List Message) (st0 st : PassState),
      pass1Aux sp st0 msgs = .ok st →
      ∀ m ∈ msgs, isViaTasks m = true → hasSubstr "Created" m.text = false →
        hasSubstr "Assigned" m.text = true → ∀ tid, threadTaskId m = some tid →
        (tid ++ "@" ++ assigneeFromText m.text) ∈ st.assigned_tasks := by
  intro msgs
  induction msgs with
  | nil =>
    intro st0 st h m hm
    simp at hm
  | cons a ms ih =>
    intro st0 st h m hm hvia hnc has2 tid hid
    unfold pass1Aux at h
    cases hstep : pass1Step sp st0 a with
    | error e =>
      rw [hstep] at h
      exact Except.noConfusion h
    | ok st1 =>
      rw [hstep] at h
      rcases List.mem_cons.mp hm with rfl | hm2
      · exact pass1Aux_assigned_mono sp ms st1 st h _
          (pass1Step_assigned sp st0 m st1 hstep hvia hnc has2 tid hid)
      · exact ih st1 st h m hm2 hvia hnc has2 tid hid

/-! ### Corollaries at the `pass1` / `get_tasks` level -/

lemma pass1_tasks (sp : String) (msgs : List Message) (st : PassState)
    (h : pass1 sp msgs = .ok st) :
    st.tasks.map (fun t => t.id) =
      (msgs.filter isCreatedEvent).map (fun m => (threadTaskId m).getD "") := by
  have := pass1Aux_tasks sp msgs initState st h
  simpa [initState] using this

lemma get_tasks_ok_of_pass1 (sp : String) (msgs : List Message) (st : PassState)
    (h : pass1 sp msgs = .ok st) :
    get_tasks sp msgs = .ok (reconcile st) := by
  unfold get_tasks
  rw [h]

lemma get_tasks_reconcile (sp : String) (msgs : List Message) (st : PassState)
    (ts : List Task) (hp : pass1 sp msgs = .ok st)
    (hg : get_tasks sp msgs = .ok ts) : ts = reconcile st := by
  rw [get_tasks_ok_of_pass1 sp msgs st hp] at hg
  exact (Except.ok.inj hg).symm

/-! ## Claim C1 — reopen-over-complete tie-break

The spec's example batch: Created, Completed, Re-opened for the same task
`T3`. -/

def c1msgs : List Message :=
  [⟨"Created via Tasks", "t1", "spaces/s/threads/T3"⟩,
   ⟨"Completed via Tasks", "t2", "spaces/s/threads/T3"⟩,
   ⟨"Re-opened via Tasks", "t3", "spaces/s/threads/T3"⟩]

/-- Claim C1 as stated is false: on the batch
`[CREATED T3], [COMPLETED T3], [REOPENED T3]` (with no DELETED event) the
reconstructed task has status `"COMPLETED"`, not `"OPEN"` — the
reconciliation `if`/`elif` tests the completed set first, so COMPLETED
wins over REOPENED. -/
theorem C1_counterexample :
    get_tasks "sp" c1msgs =
      Except.ok [{ id := "T3", assignee := "Unassigned", status := "COMPLETED",
                   created_time := "t1", space_name := "sp" }] ∧
    ("COMPLETED" : String) ≠ "OPEN" :=
  ⟨rfl, by decide⟩

/-- Claim C1 amended: when the batch has no DELETED events, a surviving
task whose id carries a COMPLETED event ends with status `"COMPLETED"`,
regardless of any REOPENED event for it — COMPLETED, not REOPENED, wins
the tie-break. -/
theorem C1_amended (sp : String) (msgs : List Message) (st : PassState)
    (ts : List Task) (t : Task)
    (hp : pass1 sp msgs = Except.ok st)
    (hd : st.deleted_tasks = [])
    (hg : get_tasks sp msgs = Except.ok ts)
    (ht : t ∈ ts)
    (hc : t.id ∈ st.completed_tasks) :
    t.status = "COMPLETED" := by
  have hts : ts = reconcile st := get_tasks_reconcile sp msgs st ts hp hg
  rw [hts, reconcile_no_del st hd] at ht
  obtain ⟨u, hu, hut⟩ := List.mem_map.mp ht
  subst hut
  rw [applyUpdates_id] at hc
  exact applyUpdates_status_of_completed st u hc

/-- Witness for `C1_amended` on the spec's own example batch: both COMPLETED
and REOPENED are present for `T3` and the final status is `"COMPLETED"`. -/
theorem C1_witness :
    get_tasks "sp" c1msgs =
      Except.ok [{ id := "T3", assignee := "Unassigned", status := "COMPLETED",
                   created_time := "t1", space_name := "sp" }] ∧
    ({ id := "T3", assignee := "Unassigned", status := "COMPLETED",
       created_time := "t1", space_name := "sp" } : Task).status = "COMPLETED" :=
  ⟨rfl,
    C1_amended "sp" c1msgs
      ⟨[⟨"T3", "Unassigned", "OPEN", "t1", "sp"⟩], ["T3"], ["T3"], [], []⟩
      [⟨"T3", "Unassigned", "COMPLETED", "t1", "sp"⟩]
      ⟨"T3", "Unassigned", "COMPLETED", "t1", "sp"⟩
      rfl rfl rfl (List.mem_cons_self _ _) (List.mem_cons_self _ _)⟩

/-! ## Claim C2 — deletion precedence -/

def c2msgs : List Message :=
  [⟨"Created via Tasks", "t1", "spaces/s/threads/T1"⟩,
   ⟨"Created via Tasks", "t2", "spaces/s/threads/T2"⟩,
   ⟨"Deleted via Tasks", "t3", "spaces/s/threads/T1"⟩,
   ⟨"Deleted via Tasks", "t4", "spaces/s/threads/T2"⟩]

/-- Claim C2 as stated is false: in a batch where `T1` and `T2` are both
created and both deleted, the first pass records both ids in the deleted
set, yet the reconstructed mapping still contains `T2` — removing `T1`
from the list while iterating over it shifts `T2` onto the just-visited
position, so `T2` is never visited and survives. -/
theorem C2_counterexample :
    pass1 "sp" c2msgs = Except.ok
      { tasks := [⟨"T1", "Unassigned", "OPEN", "t1", "sp"⟩,
                  ⟨"T2", "Unassigned", "OPEN", "t2", "sp"⟩],
        completed_tasks := [], reopened_tasks := [],
        deleted_tasks := ["T1", "T2"], assigned_tasks := [] } ∧
    get_tasks "sp" c2msgs =
      Except.ok [⟨"T2", "Unassigned", "OPEN", "t2", "sp"⟩] :=
  ⟨rfl, rfl⟩

/-- Claim C2 amended: deletion precedence holds provided at most one
materialised task is marked deleted.  (With two or more, the
remove-while-iterating pattern can skip the task immediately following a
removal, as the counterexample shows.) -/
theorem C2_amended (sp : String) (msgs : List Message) (st : PassState)
    (ts : List Task) (t : Task)
    (hp : pass1 sp msgs = Except.ok st)
    (hg : get_tasks sp msgs = Except.ok ts)
    (hone : st.tasks.countP (fun u => decide (u.id ∈ st.deleted_tasks)) ≤ 1)
    (ht : t ∈ ts) :
    t.id ∉ st.deleted_tasks := by
  have hts : ts = reconcile st := get_tasks_reconcile sp msgs st ts hp hg
  rw [hts] at ht
  exact reconcileGo_deleted_absent st st.tasks.length st.tasks 0 (by omega)
    (by simp) (by simpa using hone) t ht

/-- Witness for `C2_amended`: one deleted task (`T1`) among two created
ones; the deleted id is absent from the result and the survivor `T2` does
not carry a deleted id. -/
theorem C2_witness :
    get_tasks "sp"
      [⟨"Created via Tasks", "w1", "spaces/s/threads/T1"⟩,
       ⟨"Created via Tasks", "w2", "spaces/s/threads/T2"⟩,
       ⟨"Deleted via Tasks", "w3", "spaces/s/threads/T1"⟩] =
      Except.ok [⟨"T2", "Unassigned", "OPEN", "w2", "sp"⟩] ∧
    (⟨"T2", "Unassigned", "OPEN", "w2", "sp"⟩ : Task).id ∉ ["T1"] :=
  ⟨rfl,
    C2_amended "sp"
      [⟨"Created via Tasks", "w1", "spaces/s/threads/T1"⟩,
       ⟨"Created via Tasks", "w2", "spaces/s/threads/T2"⟩,
       ⟨"Deleted via Tasks", "w3", "spaces/s/threads/T1"⟩]
      ⟨[⟨"T1", "Unassigned", "OPEN", "w1", "sp"⟩,
        ⟨"T2", "Unassigned", "OPEN", "w2", "sp"⟩], [], [], ["T1"], []⟩
      [⟨"T2", "Unassigned", "OPEN", "w2", "sp"⟩]
      ⟨"T2", "Unassigned", "OPEN", "w2", "sp"⟩
      rfl rfl (by decide) (List.mem_cons_self _ _)⟩

/-! ## Claim C3 — duplicate-creation defense -/

def c3msgs : List Message :=
  [⟨"Created via Tasks", "t1", "spaces/s/threads/T1"⟩,
   ⟨"Created via Tasks", "t2", "spaces/s/threads/T1"⟩]

/-- Claim C3 as stated is false: two CREATED events for the same id `T1`
materialise two separate entries — there is no first-write-wins check, the
Created branch appends unconditionally — so the result contains two tasks
with the same id. -/
theorem C3_counterexample :
    get_tasks "sp" c3msgs =
      Except.ok [⟨"T1", "Unassigned", "OPEN", "t1", "sp"⟩,
                 ⟨"T1", "Unassigned", "OPEN", "t2", "sp"⟩] ∧
    (⟨"T1", "Unassigned", "OPEN", "t1", "sp"⟩ : Task).id =
      (⟨"T1", "Unassigned", "OPEN", "t2", "sp"⟩ : Task).id :=
  ⟨rfl, rfl⟩

/-- Claim C3 amended: every CREATED event (in arrival order) materialises
its own task — in a batch without DELETED events, the ids of the
reconstructed tasks are exactly the ids of the Created-classified
messages, duplicates included. -/
theorem C3_amended (sp : String) (msgs : List Message) (st : PassState)
    (ts : List Task)
    (hp : pass1 sp msgs = Except.ok st)
    (hd : st.deleted_tasks = [])
    (hg : get_tasks sp msgs = Except.ok ts) :
    ts.map (fun t => t.id) =
      (msgs.filter isCreatedEvent).map (fun m => (threadTaskId m).getD "") := by
  have hts : ts = reconcile st := get_tasks_reconcile sp msgs st ts hp hg
  rw [hts, reconcile_no_del st hd, List.map_map]
  have hcomp : ((fun t : Task => t.id) ∘ applyUpdates st) = (fun t : Task => t.id) := by
    funext u
    simp [Function.comp, applyUpdates_id]
  rw [hcomp]
  exact pass1_tasks sp msgs st hp

/-- Witness for `C3_amended` on the duplicate-creation batch: the id list
of the result is `["T1", "T1"]`, one entry per CREATED event. -/
theorem C3_witness :
    get_tasks "sp" c3msgs =
      Except.ok [⟨"T1", "Unassigned", "OPEN", "t1", "sp"⟩,
                 ⟨"T1", "Unassigned", "OPEN", "t2", "sp"⟩] ∧
    ([⟨"T1", "Unassigned", "OPEN", "t1", "sp"⟩,
      ⟨"T1", "Unassigned", "OPEN", "t2", "sp"⟩] : List Task).map (fun t => t.id) =
      (c3msgs.filter isCreatedEvent).map (fun m => (threadTaskId m).getD "") :=
  ⟨rfl,
    C3_amended "sp" c3msgs
      ⟨[⟨"T1", "Unassigned", "OPEN", "t1", "sp"⟩,
        ⟨"T1", "Unassigned", "OPEN", "t2", "sp"⟩], [], [], [], []⟩
      [⟨"T1", "Unassigned", "OPEN", "t1", "sp"⟩,
       ⟨"T1", "Unassigned", "OPEN", "t2", "sp"⟩]
      rfl rfl rfl⟩

/-! ## Claim C7 — malformed identifier propagation -/

/-- Claim C7: a message classified as an event (its text contains
`"via Tasks"`) whose thread path has fewer than four `/`-separated
segments makes the whole reconstruction fail with the propagated
`IndexError`; no partial task collection is returned. -/
theorem C7_thm (sp : String) (msgs : List Message) (m : Message)
    (hm : m ∈ msgs) (hvia : isViaTasks m = true)
    (hbad : threadTaskId m = none) :
    get_tasks sp msgs = Except.error "list index out of range" := by
  have herr : pass1 sp msgs = Except.error "list index out of range" :=
    pass1Aux_error sp msgs initState m hm hvia hbad
  unfold get_tasks
  rw [herr]

/-- Witness for `C7_thm`: a two-segment thread path (`"a/b"`) on an event
message aborts reconstruction of the whole batch. -/
theorem C7_witness :
    get_tasks "sp" [⟨"via Tasks Created", "t", "a/b"⟩] =
      Except.error "list index out of range" :=
  C7_thm "sp" [⟨"via Tasks Created", "t", "a/b"⟩] ⟨"via Tasks Created", "t", "a/b"⟩
    (List.mem_cons_self _ _) rfl rfl

/-! ## Claim C4 — time-filter boundary semantics -/

lemma charListLt_iff : ∀ (as bs : List Char), charListLt as bs = true ↔ as < bs := by
  intro as
  induction as with
  | nil =>
    intro bs
    cases bs with
    | nil =>
      simp only [charListLt]
      constructor
      · intro h
        exact absurd h (by simp)
      · intro h
        cases h
    | cons b bs =>
      simp only [charListLt]
      exact ⟨fun _ => List.Lex.nil, fun _ => by trivial⟩
  | cons a as ih =>
    intro bs
    cases bs with
    | nil =>
      simp only [charListLt]
      constructor
      · intro h
        exact absurd h (by simp)
      · intro h
        cases h
    | cons b bs =>
      simp only [charListLt]
      by_cases hab : a < b
      · rw [if_pos hab]
        exact ⟨fun _ => List.Lex.rel hab, fun _ => by trivial⟩
      · rw [if_neg hab]
        by_cases hba : b < a
        · rw [if_pos hba]
          constructor
          · intro h
            exact absurd h (by simp)
          · intro h
            cases h with
            | cons h3 => exact absurd hba (lt_irrefl a)
            | rel h1 => exact absurd h1 hab
        · rw [if_neg hba]
          have heq : a = b := le_antisymm (not_lt.mp hba) (not_lt.mp hab)
          subst heq
          constructor
          · intro h
            exact List.Lex.cons ((ih bs).mp h)
          · intro h
            cases h with
            | cons h3 => exact (ih bs).mpr h3
            | rel h1 => exact absurd h1 hab

lemma strLt_iff (a b : String) : strLt a b = true ↔ a < b := by
  rw [String.lt_iff_toList_lt]
  exact charListLt_iff a.data b.data

/-- Claim C4 as stated is false: the filter string uses a strict comparison
on BOTH bounds (`createTime > start AND createTime < end`), so a message
whose `createTime` equals `start` is NOT selected, while the claim's
half-open contract `[start, end)` would include it. -/
theorem C4_counterexample :
    messages_filter "2024-06-01T00:00:00Z" "2024-06-01T00:00:00Z"
      "2024-07-01T00:00:00Z" = false :=
  rfl

/-- Claim C4 amended: the retrieval filter selects exactly the messages
whose `createTime` lies in the OPEN interval `(start, end)` — a message
with `createTime` equal to `start` is excluded, and so is one equal to
`end`. -/
theorem C4_amended (t s e : String) :
    messages_filter t s e = true ↔ (s < t ∧ t < e) := by
  unfold messages_filter
  rw [Bool.and_eq_true, strLt_iff, strLt_iff]

/-! ## Claim C5 — assignee mention extraction -/

/-- Claim C5 as stated is false for the extraction used by reconstruction:
on `"Assigned via Tasks @Ana to(x)"` the engine extracts `"Ana to"` — no
`" to"` handling exists in `get_tasks` — while the claim's formula (after
the first `@`, up to `(`, trimmed, trailing `" to"` suffix removed) yields
`"Ana"`. -/
theorem C5_counterexample :
    assigneeFromText "Assigned via Tasks @Ana to(x)" = "Ana to" ∧
    specMentionFormula "Assigned via Tasks @Ana to(x)" = "Ana" ∧
    ("Ana to" : String) ≠ "Ana" :=
  ⟨rfl, rfl, by decide⟩

/-- Claim C5 amended: the reconstruction path extracts the piece between
the first `@` and the next `@` (if any), cut at the first `(`, trimmed,
with NO `" to"` handling; the `" to"` cut exists only in the
people-scraping path, which additionally removes everything from the first
occurrence of `" to"` (not merely a trailing suffix) from that same piece.
A text without `@` yields `"Unassigned"`. -/
theorem C5_amended (text : String) :
    (hasSubstr "@" text = false → assigneeFromText text = "Unassigned") ∧
    (hasSubstr "@" text = true →
      assigneeFromText text =
        strTrim ((strSplitOn ((strSplitOn text "@").getD 1 "") "(").getD 0 "") ∧
      peopleAssignee text =
        strTrim ((strSplitOn (assigneeFromText text) " to").getD 0 "")) := by
  constructor
  · intro h
    simp [assigneeFromText, h]
  · intro h
    constructor
    · simp [assigneeFromText, h]
    · simp [peopleAssignee, assigneeFromText, h]

/-- Witness for `C5_amended`: with an `@` the people path cuts at `" to"`
while the reconstruction path keeps it; without an `@` the default is
`"Unassigned"`. -/
theorem C5_witness :
    peopleAssignee "Assigned via Tasks @Ana to(x)" = "Ana" ∧
    assigneeFromText "Assigned via Tasks Completed" = "Unassigned" :=
  ⟨((C5_amended "Assigned via Tasks @Ana to(x)").2 rfl).2.trans rfl,
    (C5_amended "Assigned via Tasks Completed").1 rfl⟩

/-! ## Claim C6 — assignment override -/

def c6msgs : List Message :=
  [⟨"Created via Tasks", "u1", "spaces/s/threads/X"⟩,
   ⟨"Deleted via Tasks", "u2", "spaces/s/threads/X"⟩,
   ⟨"Created via Tasks @Alice(alice)", "u3", "spaces/s/threads/T2"⟩,
   ⟨"Assigned via Tasks @Bob(bob) to Space", "u4", "spaces/s/threads/T2"⟩]

/-- Claim C6 as stated is false: it permits DELETED events for other ids,
but deleting `X` (created immediately before `T2`) makes the
remove-while-iterating pass skip `T2` entirely, so the single ASSIGNED
event for `T2` (mentioning Bob) is never applied and the task keeps
`"Alice"`. -/
theorem C6_counterexample :
    get_tasks "sp" c6msgs =
      Except.ok [⟨"T2", "Alice", "OPEN", "u3", "sp"⟩] ∧
    ("Alice" : String) ≠ "Bob" :=
  ⟨rfl, by decide⟩

/-- Claim C6 amended: in a batch with no DELETED events at all, a
materialised task for which exactly one assignment entry matches its id
ends up with that entry's assignee (the part after the `"@"` in the
recorded `task_id ++ "@" ++ assignee` string). -/
theorem C6_amended (sp : String) (msgs : List Message) (st : PassState)
    (ts : List Task) (u : Task) (e : String)
    (hp : pass1 sp msgs = Except.ok st)
    (hd : st.deleted_tasks = [])
    (hg : get_tasks sp msgs = Except.ok ts)
    (hu : u ∈ st.tasks)
    (he : st.assigned_tasks.filter
      (fun s => (strSplitOn s "@").getD 0 "" == u.id) = [e]) :
    applyUpdates st u ∈ ts ∧
    (applyUpdates st u).assignee = (strSplitOn e "@").getD 1 "" := by
  have hts : ts = reconcile st := get_tasks_reconcile sp msgs st ts hp hg
  subst hts
  rw [reconcile_no_del st hd]
  exact ⟨List.mem_map_of_mem _ hu, applyUpdates_assignee_of_filter st u e he⟩

/-- Witness for `C6_amended`: `[CREATED T2 @Alice], [ASSIGNED T2 @Bob]`
with no deletions yields assignee `"Bob"`. -/
theorem C6_witness :
    get_tasks "sp"
      [⟨"Created via Tasks @Alice(alice)", "w1", "spaces/s/threads/T2"⟩,
       ⟨"Assigned via Tasks @Bob(bob) to Space", "w2", "spaces/s/threads/T2"⟩] =
      Except.ok [⟨"T2", "Bob", "OPEN", "w1", "sp"⟩] ∧
    (applyUpdates
      ⟨[⟨"T2", "Alice", "OPEN", "w1", "sp"⟩], [], [], [], ["T2@Bob"]⟩
      ⟨"T2", "Alice", "OPEN", "w1", "sp"⟩).assignee = "Bob" :=
  ⟨rfl,
    (C6_amended "sp"
      [⟨"Created via Tasks @Alice(alice)", "w1", "spaces/s/threads/T2"⟩,
       ⟨"Assigned via Tasks @Bob(bob) to Space", "w2", "spaces/s/threads/T2"⟩]
      ⟨[⟨"T2", "Alice", "OPEN", "w1", "sp"⟩], [], [], [], ["T2@Bob"]⟩
      [⟨"T2", "Bob", "OPEN", "w1", "sp"⟩]
      ⟨"T2", "Alice", "OPEN", "w1", "sp"⟩
      "T2@Bob"
      rfl rfl rfl (List.mem_cons_self _ _) rfl).2.trans rfl⟩

/-! ## Claim C8 — unknown-reference no-op -/

/-- Claim C8: on a batch whose event messages all carry well-formed thread
paths, reconstruction succeeds (no error is raised), and every task in the
result descends from a Created-classified message whose thread id equals
the task's id — non-creation events referencing unknown ids can never
materialise a task. -/
theorem C8_thm (sp : String) (msgs : List Message)
    (hwf : ∀ m ∈ msgs, isViaTasks m = true → threadTaskId m ≠ none) :
    ∃ ts, get_tasks sp msgs = Except.ok ts ∧
      ∀ t ∈ ts, ∃ m ∈ msgs, isViaTasks m = true ∧
        hasSubstr "Created" m.text = true ∧ threadTaskId m = some t.id := by
  obtain ⟨st, hok⟩ := pass1Aux_ok_exists sp msgs initState hwf
  have hok2 : pass1 sp msgs = Except.ok st := hok
  refine ⟨reconcile st, get_tasks_ok_of_pass1 sp msgs st hok2, ?_⟩
  intro t ht
  obtain ⟨u, hu, hid⟩ := reconcileGo_mem st st.tasks.length st.tasks 0 t ht
  have humem : u.id ∈ st.tasks.map (fun t => t.id) := List.mem_map_of_mem _ hu
  rw [pass1_tasks sp msgs st hok2] at humem
  obtain ⟨m, hmf, hmid⟩ := List.mem_map.mp humem
  have hmm : m ∈ msgs := List.mem_of_mem_filter hmf
  have hcr : isCreatedEvent m = true := List.of_mem_filter hmf
  obtain ⟨hvia, hcre⟩ : isViaTasks m = true ∧ hasSubstr "Created" m.text = true := by
    simpa [isCreatedEvent, Bool.and_eq_true] using hcr
  obtain ⟨x, hx⟩ := Option.ne_none_iff_exists.mp (hwf m hmm hvia)
  refine ⟨m, hmm, hvia, hcre, ?_⟩
  rw [← hx]
  have hxid : x = u.id := by
    rw [← hmid, ← hx]
    rfl
  rw [hxid, ← hid]

def c8msgs : List Message :=
  [⟨"Created via Tasks", "t1", "spaces/s/threads/T1"⟩,
   ⟨"Completed via Tasks", "t2", "spaces/s/threads/T9"⟩]

/-- Witness for `C8_thm`, including the spec's own example: a lone
`[COMPLETED T9]` batch reconstructs to the empty mapping with no error. -/
theorem C8_witness :
    (∀ m ∈ c8msgs, isViaTasks m = true → threadTaskId m ≠ none) ∧
    (∃ ts, get_tasks "sp" c8msgs = Except.ok ts ∧
      ∀ t ∈ ts, ∃ m ∈ c8msgs, isViaTasks m = true ∧
        hasSubstr "Created" m.text = true ∧ threadTaskId m = some t.id) ∧
    get_tasks "sp" [⟨"Completed via Tasks", "t2", "spaces/s/threads/T9"⟩] =
      Except.ok [] :=
  ⟨by decide, C8_thm "sp" c8msgs (by decide), rfl⟩

/-! ## Claim C9 — aggregation correctness -/

lemma insertSorted_perm (a : String) (l : List String) :
    (insertSorted a l).Perm (a :: l) := by
  induction l with
  | nil => exact List.Perm.refl _
  | cons b l ih =>
    unfold insertSorted
    split
    · exact List.Perm.refl _
    · exact (ih.cons b).trans (List.Perm.swap a b l)

lemma sortStrings_perm (l : List String) : (sortStrings l).Perm l := by
  induction l with
  | nil => exact List.Perm.refl _
  | cons a l ih =>
    exact (insertSorted_perm a (sortStrings l)).trans (ih.cons a)

/-- Claim C9: the report always carries the four-column schema; the empty
collection yields an empty report rather than a failure; there is exactly
one row per distinct assignee (row assignees are duplicate-free, and an
assignee has a row iff it owns a task); and every row counts the
assignee's tasks, its COMPLETED tasks, and reports the exact ratio
`tasks_completed / tasks_received`. -/
theorem C9_thm (tasks : List Task) :
    (analyze_tasks tasks).columns = reportColumns ∧
    analyze_tasks [] = { columns := reportColumns, rows := [] } ∧
    ((analyze_tasks tasks).rows.map (fun r => r.assignee)).Nodup ∧
    (∀ a : String, (∃ t ∈ tasks, t.assignee = a) ↔
      ∃ r ∈ (analyze_tasks tasks).rows, r.assignee = a) ∧
    (∀ r ∈ (analyze_tasks tasks).rows,
      r.tasks_received = (tasks.filter (fun t => t.assignee == r.assignee)).length ∧
      r.tasks_completed = (tasks.filter
        (fun t => t.assignee == r.assignee && t.status == "COMPLETED")).length ∧
      r.completion_rate = (r.tasks_completed : Rat) / (r.tasks_received : Rat)) := by
  by_cases hempty : tasks.isEmpty
  · have htasks : tasks = [] := List.isEmpty_iff.mp hempty
    subst htasks
    refine ⟨rfl, rfl, by simp [analyze_tasks, reportColumns], ?_, ?_⟩
    · intro a
      simp [analyze_tasks]
    · intro r hr
      simp [analyze_tasks] at hr
  · have hrows : (analyze_tasks tasks).rows =
        (sortStrings ((tasks.map (fun t => t.assignee)).dedup)).map (fun a =>
          { assignee := a,
            tasks_received := (tasks.filter (fun t => t.assignee == a)).length,
            tasks_completed := (tasks.filter
              (fun t => t.assignee == a && t.status == "COMPLETED")).length,
            completion_rate :=
              ((tasks.filter (fun t => t.assignee == a && t.status == "COMPLETED")).length : Rat) /
                ((tasks.filter (fun t => t.assignee == a)).length : Rat) }) := by
      simp [analyze_tasks, hempty]
    have hcols : (analyze_tasks tasks).columns = reportColumns := by
      simp [analyze_tasks, hempty]
    have hassmap : (analyze_tasks tasks).rows.map (fun r => r.assignee) =
        sortStrings ((tasks.map (fun t => t.assignee)).dedup) := by
      rw [hrows, List.map_map]
      exact List.map_id _
    have hperm := sortStrings_perm ((tasks.map (fun t => t.assignee)).dedup)
    refine ⟨hcols, rfl, ?_, ?_, ?_⟩
    · rw [hassmap]
      exact hperm.nodup_iff.mpr (List.nodup_dedup _)
    · intro a
      constructor
      · intro ⟨t, htm, hta⟩
        have hmem : a ∈ sortStrings ((tasks.map (fun t => t.assignee)).dedup) := by
          rw [hperm.mem_iff, List.mem_dedup]
          exact List.mem_map.mpr ⟨t, htm, hta⟩
        have : a ∈ (analyze_tasks tasks).rows.map (fun r => r.assignee) := by
          rw [hassmap]
          exact hmem
        obtain ⟨r, hr, hra⟩ := List.mem_map.mp this
        exact ⟨r, hr, hra⟩
      · intro ⟨r, hr, hra⟩
        have : r.assignee ∈ (analyze_tasks tasks).rows.map (fun r => r.assignee) :=
          List.mem_map_of_mem _ hr
        rw [hassmap, hperm.mem_iff, List.mem_dedup] at this
        obtain ⟨t, htm, hta⟩ := List.mem_map.mp this
        exact ⟨t, htm, by rw [hta, hra]⟩
    · intro r hr
      rw [hrows] at hr
      obtain ⟨a, _, hra⟩ := List.mem_map.mp hr
      subst hra
      exact ⟨rfl, rfl, rfl⟩

def c9tasks : List Task :=
  [⟨"1", "A", "COMPLETED", "t1", "sp"⟩,
   ⟨"2", "A", "OPEN", "t2", "sp"⟩,
   ⟨"3", "B", "COMPLETED", "t3", "sp"⟩]

/-- Witness for `C9_thm` on the spec's example collection: assignee `A`
received 2 tasks, completed 1, rate `1/2`. -/
theorem C9_witness :
    (analyze_tasks c9tasks).rows =
      [⟨"A", 2, 1, ((1 : Nat) : Rat) / ((2 : Nat) : Rat)⟩,
       ⟨"B", 1, 1, ((1 : Nat) : Rat) / ((1 : Nat) : Rat)⟩] ∧
    ((⟨"A", 2, 1, ((1 : Nat) : Rat) / ((2 : Nat) : Rat)⟩ : ReportRow).tasks_received =
        (c9tasks.filter (fun t => t.assignee ==
          (⟨"A", 2, 1, ((1 : Nat) : Rat) / ((2 : Nat) : Rat)⟩ : ReportRow).assignee)).length ∧
      (⟨"A", 2, 1, ((1 : Nat) : Rat) / ((2 : Nat) : Rat)⟩ : ReportRow).tasks_completed =
        (c9tasks.filter (fun t => t.assignee ==
          (⟨"A", 2, 1, ((1 : Nat) : Rat) / ((2 : Nat) : Rat)⟩ : ReportRow).assignee &&
            t.status == "COMPLETED")).length ∧
      (⟨"A", 2, 1, ((1 : Nat) : Rat) / ((2 : Nat) : Rat)⟩ : ReportRow).completion_rate =
        (((⟨"A", 2, 1, ((1 : Nat) : Rat) / ((2 : Nat) : Rat)⟩ : ReportRow).tasks_completed : Rat) /
          ((⟨"A", 2, 1, ((1 : Nat) : Rat) / ((2 : Nat) : Rat)⟩ : ReportRow).tasks_received : Rat))) :=
  ⟨rfl, (C9_thm c9tasks).2.2.2.2 ⟨"A", 2, 1, ((1 : Nat) : Rat) / ((2 : Nat) : Rat)⟩
    (List.mem_cons_self _ _)⟩

/-! ## Claim C10 — unassigned override -/

def c10msgs : List Message :=
  [⟨"Created via Tasks", "u1", "spaces/s/threads/X"⟩,
   ⟨"Deleted via Tasks", "u2", "spaces/s/threads/X"⟩,
   ⟨"Created via Tasks @Alice(alice)", "u3", "spaces/s/threads/T2"⟩,
   ⟨"Assigned via Tasks", "u4", "spaces/s/threads/T2"⟩]

/-- Claim C10 as stated is false: the no-`@` ASSIGNED event for `T2` is
recorded with the `"Unassigned"` default, but deleting `X` (created
immediately before `T2`) makes the reconciliation skip `T2`, so the
existing assignee `"Alice"` is NOT overwritten. -/
theorem C10_counterexample :
    pass1 "sp" c10msgs = Except.ok
      { tasks := [⟨"X", "Unassigned", "OPEN", "u1", "sp"⟩,
                  ⟨"T2", "Alice", "OPEN", "u3", "sp"⟩],
        completed_tasks := [], reopened_tasks := [],
        deleted_tasks := ["X"], assigned_tasks := ["T2@Unassigned"] } ∧
    get_tasks "sp" c10msgs =
      Except.ok [⟨"T2", "Alice", "OPEN", "u3", "sp"⟩] ∧
    ("Alice" : String) ≠ "Unassigned" :=
  ⟨rfl, rfl, by decide⟩

/-- Claim C10 amended: an ASSIGNED event without an `@` mention is indeed
recorded with the `"Unassigned"` default (the default applies to every
event kind, not only CREATED); and in a batch with no DELETED events where
that entry is the only assignment matching a materialised task's id, the
reconstructed task's assignee becomes `"Unassigned"`. -/
theorem C10_amended (sp : String) (msgs : List Message) (st : PassState)
    (m : Message) (tid : String)
    (hp : pass1 sp msgs = Except.ok st)
    (hm : m ∈ msgs)
    (hvia : isViaTasks m = true)
    (hnc : hasSubstr "Created" m.text = false)
    (has2 : hasSubstr "Assigned" m.text = true)
    (hna : hasSubstr "@" m.text = false)
    (hid : threadTaskId m = some tid) :
    (tid ++ "@" ++ "Unassigned") ∈ st.assigned_tasks ∧
    (∀ (ts : List Task) (u : Task),
      get_tasks sp msgs = Except.ok ts →
      st.deleted_tasks = [] →
      u ∈ st.tasks →
      st.assigned_tasks.filter (fun s => (strSplitOn s "@").getD 0 "" == u.id) =
        [tid ++ "@" ++ "Unassigned"] →
      (strSplitOn (tid ++ "@" ++ "Unassigned") "@").getD 1 "" = "Unassigned" →
      applyUpdates st u ∈ ts ∧ (applyUpdates st u).assignee = "Unassigned") := by
  have hun : assigneeFromText m.text = "Unassigned" := by
    simp [assigneeFromText, hna]
  constructor
  · have hmem := pass1Aux_assigned_mem sp msgs initState st hp m hm hvia hnc has2 tid hid
    rw [hun] at hmem
    exact hmem
  · intro ts u hg hd hu hfil hsplit
    have hts : ts = reconcile st := get_tasks_reconcile sp msgs st ts hp hg
    subst hts
    rw [reconcile_no_del st hd]
    refine ⟨List.mem_map_of_mem _ hu, ?_⟩
    rw [applyUpdates_assignee_of_filter st u _ hfil, hsplit]

/-- Witness for `C10_amended`: `[CREATED T2 @Alice], [ASSIGNED T2]` (no
mention, no deletions) records `"T2@Unassigned"` and overwrites the
assignee with `"Unassigned"`. -/
theorem C10_witness :
    get_tasks "sp"
      [⟨"Created via Tasks @Alice(alice)", "w1", "spaces/s/threads/T2"⟩,
       ⟨"Assigned via Tasks", "w2", "spaces/s/threads/T2"⟩] =
      Except.ok [⟨"T2", "Unassigned", "OPEN", "w1", "sp"⟩] ∧
    ("T2" ++ "@" ++ "Unassigned") ∈ ["T2@Unassigned"] ∧
    (applyUpdates
      ⟨[⟨"T2", "Alice", "OPEN", "w1", "sp"⟩], [], [], [], ["T2@Unassigned"]⟩
      ⟨"T2", "Alice", "OPEN", "w1", "sp"⟩).assignee = "Unassigned" := by
  have h := C10_amended "sp"
    [⟨"Created via Tasks @Alice(alice)", "w1", "spaces/s/threads/T2"⟩,
     ⟨"Assigned via Tasks", "w2", "spaces/s/threads/T2"⟩]
    ⟨[⟨"T2", "Alice", "OPEN", "w1", "sp"⟩], [], [], [], ["T2@Unassigned"]⟩
    ⟨"Assigned via Tasks", "w2", "spaces/s/threads/T2"⟩ "T2"
    rfl (by decide) rfl rfl rfl rfl rfl
  exact ⟨rfl, h.1,
    (h.2 [⟨"T2", "Unassigned", "OPEN", "w1", "sp"⟩]
      ⟨"T2", "Alice", "OPEN", "w1", "sp"⟩
      rfl rfl (List.mem_cons_self _ _) rfl rfl).2⟩

end Scrapper
